import Mathlib

/-!
Verification development for the Bear MCP server (x-callback-url client).

The definitions below are a shallow embedding of the TypeScript sources:
`utils.ts` (parameter codec helpers), and `bear-api.ts` (the `BearAPI`
class: the per-action command facade and the `executeCommand` callback
correlator).  JavaScript runtime values appearing in `any`-typed
positions are modelled by `JValue`; JavaScript exceptions are modelled
with `Except String`; the event-driven body of `executeCommand` is
modelled as a state machine driven by a list of runtime events, with
promise settle-once semantics made explicit.
-/

set_option autoImplicit false

namespace BearMcp

/-- A JavaScript runtime value, as far as the codec helpers inspect one:
booleans, strings, numbers, `null` and `undefined`. -/
inductive JValue where
  | bool (b : Bool)
  | str (s : String)
  | num (n : Int)
  | null
  | undef
deriving DecidableEq

/-- The `string | string[]` union accepted by the `tags` fields. -/
inductive TagsParam where
  | str (s : String)
  | list (l : List String)
deriving DecidableEq

/-- Embedding of the JavaScript `Array.prototype.join(',')` used by
`formatTags`: elements concatenated with a comma between consecutive
elements. -/
def joinComma : List String → String
  | [] => ""
  | [s] => s
  | s :: t :: rest => s ++ "," ++ joinComma (t :: rest)

/-- `utils.ts` `formatTags`: an array of tags is joined with commas, a
bare string is returned unchanged. -/
def formatTags : TagsParam → String
  | .list l => joinComma l
  | .str s => s

/-- JavaScript `String.prototype.trim`, modelled on the character list:
whitespace stripped from both ends (kept kernel-computable, unlike the
built-in `String.trim`). -/
def jsTrim (s : String) : String :=
  ⟨((s.data.dropWhile Char.isWhitespace).reverse.dropWhile Char.isWhitespace).reverse⟩

/-- `utils.ts` `validateNonEmptyString`: throws unless the value is a
string whose trimmed form is non-empty. -/
def validateNonEmptyString (value : JValue) (name : String) : Except String Unit :=
  match value with
  | .str s =>
    if jsTrim s = "" then .error (name ++ " must be a non-empty string") else .ok ()
  | _ => .error (name ++ " must be a non-empty string")

/-- `utils.ts` `validateAndFormatBoolean`: a boolean maps to the token
yes or no, the two string tokens pass through unchanged, and every
other value throws. -/
def validateAndFormatBoolean (value : JValue) (name : String) : Except String String :=
  match value with
  | .bool b => .ok (if b then "yes" else "no")
  | .str s =>
    if s = "yes" ∨ s = "no" then .ok s
    else .error (name ++ " must be a boolean or yes/no")
  | _ => .error (name ++ " must be a boolean or yes/no")

/-!
## The executeCommand correlator (bear-api.ts, callback variant)

`executeCommand` returns `new Promise((resolve, reject) => ...)` and
wires four callbacks: the HTTP request handler of the local server, the
`server.listen` continuation (build the bear URL, `await execPromise`,
`setTimeout`), the timeout callback, and the `server.on('error')`
handler.  We model one invocation as a state machine driven by a list
of runtime events; the promise's settle-once discipline is explicit in
`settleWith`.
-/

/-- The value with which the promise returned by `executeCommand`
settles.  `payload` carries the query pairs of the inbound callback
request (`resolve(callbackData)`); the three rejection variants are the
timeout error, the catch block of the listen continuation (address
failure or exec failure), and the error event of the server. -/
inductive Outcome where
  | payload (data : List (String × String))
  | timeoutErr
  | transportErr
  | serverErr
deriving DecidableEq

/-- The runtime state of one `executeCommand` invocation. -/
structure ExchangeState where
  /-- the `server.listen` callback has fired: the socket is bound and accepting -/
  bound : Bool
  /-- the listen continuation (URL build, exec, `setTimeout`) has finished -/
  contDone : Bool
  /-- `execPromise(open -a Bear url)` has been invoked -/
  dispatched : Bool
  /-- `setTimeout(..., 10000)` has been registered -/
  timerSet : Bool
  /-- the timeout callback has run -/
  timerFired : Bool
  /-- `server.close()` has been called -/
  serverClosed : Bool
  /-- the promise state: `none` while pending, then the first settlement -/
  settled : Option Outcome
deriving DecidableEq

def initExchange : ExchangeState :=
  ⟨false, false, false, false, false, false, none⟩

/-- JavaScript promises settle at most once: a later `resolve` or
`reject` on an already settled promise is a no-op. -/
def settleWith (s : ExchangeState) (o : Outcome) : ExchangeState :=
  match s.settled with
  | some _ => s
  | none => { s with settled := some o }

/-- Events delivered to the callbacks of `executeCommand` by the Node
event loop and the OS. -/
inductive CallbackEvent where
  /-- the `server.listen(0, 'localhost', ...)` callback fires: the socket is bound -/
  | listening
  /-- the `server.on('error', ...)` handler fires -/
  | serverError
  /-- the listen continuation runs to completion: URL built, exec dispatched
  and resolved, timeout registered -/
  | contOk
  /-- the listen continuation throws (address failure, or `execPromise`
  rejects): `server.close()` then `reject` -/
  | contFail
  /-- the server's request handler runs on an inbound callback request
  carrying the given query pairs -/
  | callbackReq (p : List (String × String))
  /-- the registered timeout callback fires -/
  | timerFire
deriving DecidableEq

/-- One event handled by the code of `executeCommand` (lines 223-334 of
the callback variant of bear-api.ts).  Guards record when a handler can
run at all: the listen continuation runs once, after the socket is
bound; a request is served only while the server is accepting; the
timeout callback runs once, after `setTimeout` registered it.  The
`error` handler rejects but does not close the server, and the request
handler resolves but does not clear the timeout. -/
def step (s : ExchangeState) (e : CallbackEvent) : ExchangeState :=
  match e with
  | .listening => if s.bound then s else { s with bound := true }
  | .serverError => settleWith s .serverErr
  | .contOk =>
      if s.bound && !s.contDone then
        { s with contDone := true, dispatched := true, timerSet := true }
      else s
  | .contFail =>
      if s.bound && !s.contDone then
        settleWith { s with contDone := true, serverClosed := true } .transportErr
      else s
  | .callbackReq p =>
      if s.bound && !s.serverClosed then
        settleWith { s with serverClosed := true } (.payload p)
      else s
  | .timerFire =>
      if s.timerSet && !s.timerFired then
        settleWith { s with timerFired := true, serverClosed := true } .timeoutErr
      else s

/-- The state after `executeCommand` has processed a sequence of events. -/
def run (tr : List CallbackEvent) : ExchangeState :=
  tr.foldl step initExchange

/-!
## The command facade (bear-api.ts, callback variant)

Each method builds a flat `commandParams` record and delegates to
`executeCommand`.  We model the record as a list of key/value pairs in
insertion order, a method as an `Except`-valued function (JavaScript
throws become `Except.error`), and its delegation as the returned
`Command`.
-/

/-- What a facade method hands to `executeCommand`: the action path
segment and the flat string parameter record, in insertion order. -/
structure Command where
  action : String
  params : List (String × String)
deriving DecidableEq

/-- One optional string field, copied under JavaScript truthiness:
`if (params.x) commandParams.x = params.x` contributes the entry only
when the field is present and non-empty. -/
def pushStr (key : String) (v : Option String) (acc : List (String × String)) :
    List (String × String) :=
  match v with
  | some s => if s = "" then acc else acc ++ [(key, s)]
  | none => acc

/-- One optional boolean-ish field:
`if (params.x !== undefined) commandParams.x = validateAndFormatBoolean(params.x, ..)`,
which may throw. -/
def pushBool (key : String) (v : Option JValue) (acc : List (String × String)) :
    Except String (List (String × String)) :=
  match v with
  | some jv => do
      let t ← validateAndFormatBoolean jv key
      return acc ++ [(key, t)]
  | none => .ok acc

/-- The `tags` field: `if (params.tags) commandParams.tags = formatTags(params.tags)`.
A bare empty string is falsy and skipped; an array (even empty) is
truthy and formatted. -/
def pushTags (v : Option TagsParam) (acc : List (String × String)) :
    List (String × String) :=
  match v with
  | some (.str s) => if s = "" then acc else acc ++ [("tags", formatTags (.str s))]
  | some (.list l) => acc ++ [("tags", formatTags (.list l))]
  | none => acc

/-- One `if (params.x) ...` line of a facade method: an optional string
field, a boolean-ish field, or the tags field. -/
inductive Field where
  | strF (key : String) (v : Option String)
  | boolF (key : String) (v : Option JValue)
  | tagsF (v : Option TagsParam)
deriving DecidableEq

/-- The record key a field line writes. -/
def fieldKey : Field → String
  | .strF k _ => k
  | .boolF k _ => k
  | .tagsF _ => "tags"

/-- Process one field line of a facade method. -/
def pushField (acc : List (String × String)) : Field → Except String (List (String × String))
  | .strF key v => .ok (pushStr key v acc)
  | .boolF key v => pushBool key v acc
  | .tagsF v => .ok (pushTags v acc)

/-- Process the field lines of a facade method in source order,
threading the `commandParams` record. -/
def pushFields (acc : List (String × String)) : List Field → Except String (List (String × String))
  | [] => .ok acc
  | f :: fs => do
      let acc2 ← pushField acc f
      pushFields acc2 fs

/-- JavaScript truthiness of an optional token string (`this.token` is
`string | undefined`; `!this.token` is true when it is absent or empty). -/
def tokenValue (tok : Option String) : Option String :=
  match tok with
  | some s => if s = "" then none else some s
  | none => none

/-- `params.token || this.token`: the per-call token when truthy,
otherwise the stored token when truthy. -/
def orToken (perCall stored : Option String) : Option String :=
  match tokenValue perCall with
  | some s => some s
  | none => tokenValue stored

/-- The test `params.selected === true || params.selected === 'yes'`. -/
def selectedAffirmative (v : Option JValue) : Bool :=
  match v with
  | some (.bool true) => true
  | some (.str s) => s = "yes"
  | _ => false

/-- The token block shared by openNote, addText and addFile: when
`selected` is affirmative, throw unless a token is configured, else
append it to the record. -/
def addSelectedToken (selected : Option JValue) (tok : Option String)
    (acc : List (String × String)) : Except String (List (String × String)) :=
  if selectedAffirmative selected then
    match tokenValue tok with
    | none => .error ("Token is required when selected is true")
    | some t => .ok (acc ++ [("token", t)])
  else .ok acc

/-- `OpenNoteParams` of bear-api.ts; boolean-ish unions are runtime
values (`JValue`), optional fields are `Option`. -/
structure OpenNoteParams where
  id : Option String := none
  title : Option String := none
  header : Option String := none
  exclude_trashed : Option JValue := none
  new_window : Option JValue := none
  float : Option JValue := none
  show_window : Option JValue := none
  open_note : Option JValue := none
  selected : Option JValue := none
  pin : Option JValue := none
  edit : Option JValue := none
  search : Option String := none
deriving DecidableEq

/-- The `commandParams` record built by `BearAPI.openNote`, field by
field in source order. -/
def openNoteParamList (p : OpenNoteParams) : Except String (List (String × String)) :=
  pushFields []
    [.strF "id" p.id, .strF "title" p.title, .strF "header" p.header,
     .boolF "exclude_trashed" p.exclude_trashed, .boolF "new_window" p.new_window,
     .boolF "float" p.float, .boolF "show_window" p.show_window,
     .boolF "open_note" p.open_note, .boolF "selected" p.selected,
     .boolF "pin" p.pin, .boolF "edit" p.edit, .strF "search" p.search]

/-- `BearAPI.openNote`: build the record, run the selected-token block,
delegate the open-note action. -/
def openNote (p : OpenNoteParams) (tok : Option String) : Except String Command := do
  let ps ← openNoteParamList p
  let ps ← addSelectedToken p.selected tok ps
  return ⟨"open-note", ps⟩

/-- `CreateNoteParams` of bear-api.ts. -/
structure CreateNoteParams where
  title : Option String := none
  text : Option String := none
  clipboard : Option JValue := none
  tags : Option TagsParam := none
  file : Option String := none
  filename : Option String := none
  open_note : Option JValue := none
  new_window : Option JValue := none
  float : Option JValue := none
  show_window : Option JValue := none
  pin : Option JValue := none
  edit : Option JValue := none
  timestamp : Option JValue := none
  type : Option String := none
  url : Option String := none
deriving DecidableEq

/-- The `commandParams` record built by `BearAPI.createNote`, field by
field in source order. -/
def createNoteParamList (p : CreateNoteParams) : Except String (List (String × String)) :=
  pushFields []
    [.strF "title" p.title, .strF "text" p.text, .boolF "clipboard" p.clipboard,
     .tagsF p.tags, .strF "file" p.file, .strF "filename" p.filename,
     .boolF "open_note" p.open_note, .boolF "new_window" p.new_window,
     .boolF "float" p.float, .boolF "show_window" p.show_window,
     .boolF "pin" p.pin, .boolF "edit" p.edit, .boolF "timestamp" p.timestamp,
     .strF "type" p.type, .strF "url" p.url]

/-- `BearAPI.createNote`: build the record, delegate the create action
(no validation of required fields, no token block). -/
def createNote (p : CreateNoteParams) : Except String Command := do
  let ps ← createNoteParamList p
  return ⟨"create", ps⟩

/-- `AddTextParams` of bear-api.ts. -/
structure AddTextParams where
  id : Option String := none
  title : Option String := none
  selected : Option JValue := none
  text : Option String := none
  clipboard : Option JValue := none
  header : Option String := none
  mode : Option String := none
  new_line : Option JValue := none
  tags : Option TagsParam := none
  exclude_trashed : Option JValue := none
  open_note : Option JValue := none
  new_window : Option JValue := none
  show_window : Option JValue := none
  edit : Option JValue := none
  timestamp : Option JValue := none
deriving DecidableEq

/-- The `commandParams` record built by `BearAPI.addText`, field by
field in source order. -/
def addTextParamList (p : AddTextParams) : Except String (List (String × String)) :=
  pushFields []
    [.strF "id" p.id, .strF "title" p.title, .boolF "selected" p.selected,
     .strF "text" p.text, .boolF "clipboard" p.clipboard, .strF "header" p.header,
     .strF "mode" p.mode, .boolF "new_line" p.new_line, .tagsF p.tags,
     .boolF "exclude_trashed" p.exclude_trashed, .boolF "open_note" p.open_note,
     .boolF "new_window" p.new_window, .boolF "show_window" p.show_window,
     .boolF "edit" p.edit, .boolF "timestamp" p.timestamp]

/-- `BearAPI.addText`: build the record, run the selected-token block,
delegate the add-text action.  The source contains no check that an id
or title is present. -/
def addText (p : AddTextParams) (tok : Option String) : Except String Command := do
  let ps ← addTextParamList p
  let ps ← addSelectedToken p.selected tok ps
  return ⟨"add-text", ps⟩

/-- `AddFileParams` of bear-api.ts (`file` and `filename` are required
strings). -/
structure AddFileParams where
  id : Option String := none
  title : Option String := none
  selected : Option JValue := none
  file : String
  header : Option String := none
  filename : String
  mode : Option String := none
  open_note : Option JValue := none
  new_window : Option JValue := none
  show_window : Option JValue := none
  edit : Option JValue := none
deriving DecidableEq

/-- The `commandParams` record built by `BearAPI.addFile`, in source
order: id, title and selected are copied first, then file and filename
are validated non-empty and copied unconditionally, then the remaining
optional fields. -/
def addFileParamList (p : AddFileParams) : Except String (List (String × String)) := do
  let a ← pushFields []
    [.strF "id" p.id, .strF "title" p.title, .boolF "selected" p.selected]
  let _ ← validateNonEmptyString (.str p.file) "file"
  let _ ← validateNonEmptyString (.str p.filename) "filename"
  pushFields (a ++ [("file", p.file), ("filename", p.filename)])
    [.strF "header" p.header, .strF "mode" p.mode,
     .boolF "open_note" p.open_note, .boolF "new_window" p.new_window,
     .boolF "show_window" p.show_window, .boolF "edit" p.edit]

/-- `BearAPI.addFile`: build the record, run the selected-token block,
delegate the add-file action. -/
def addFile (p : AddFileParams) (tok : Option String) : Except String Command := do
  let ps ← addFileParamList p
  let ps ← addSelectedToken p.selected tok ps
  return ⟨"add-file", ps⟩

/-- `GrabURLParams` of bear-api.ts (`url` is a required string). -/
structure GrabURLParams where
  url : String
  tags : Option TagsParam := none
  pin : Option JValue := none
  wait : Option JValue := none
deriving DecidableEq

/-- `BearAPI.grabURL`: validate that `url` is a non-empty string before
anything else, then build the record and delegate the grab-url action. -/
def grabURL (p : GrabURLParams) : Except String Command :=
  match validateNonEmptyString (.str p.url) "url" with
  | .error e => .error e
  | .ok _ => do
      let a ← pushFields [("url", p.url)]
        [.tagsF p.tags, .boolF "pin" p.pin, .boolF "wait" p.wait]
      return ⟨"grab-url", a⟩

/-- `BearAPI.getTags`: throw unless a token is configured, else delegate
the tags action carrying the token. -/
def getTags (tok : Option String) : Except String Command :=
  match tokenValue tok with
  | none => .error ("Token is required for getTags")
  | some t => .ok ⟨"tags", [("token", t)]⟩

/-- `SearchParams` of bear-api.ts. -/
structure SearchParams where
  term : Option String := none
  tag : Option String := none
  show_window : Option JValue := none
  token : Option String := none
deriving DecidableEq

/-- The instance state of the `BearAPI` class: the stored token set by
the constructor. -/
structure BearAPI where
  token : Option String := none
deriving DecidableEq

/-- `BearAPI.setToken`: assigns `this.token`. -/
def setToken (a : BearAPI) (t : String) : BearAPI :=
  { a with token := some t }

/-- The command built by `BearAPI.searchNotes` from the per-call
parameters and the instance state. -/
def searchNotesCmd (a : BearAPI) (p : SearchParams) : Except String Command := do
  let q ← pushFields []
    [.strF "term" p.term, .strF "tag" p.tag, .boolF "show_window" p.show_window]
  match orToken p.token a.token with
  | some t => return ⟨"search", q ++ [("token", t)]⟩
  | none => return ⟨"search", q⟩

/-- `BearAPI.searchNotes` as a state-passing function: the method reads
`this.token` but contains no assignment to it, so the instance state it
leaves behind is the one it received. -/
def searchNotes (a : BearAPI) (p : SearchParams) : Except String Command × BearAPI :=
  (searchNotesCmd a p, a)

/-- A field line that writes nothing into the record: an absent or
empty optional string, an absent boolean-ish field, an absent tags
field or an empty tags string (all falsy in JavaScript). -/
def fieldSkips : Field → Bool
  | .strF _ none => true
  | .strF _ (some s) => s == ""
  | .boolF _ none => true
  | .boolF _ (some _) => false
  | .tagsF none => true
  | .tagsF (some (.str s)) => s == ""
  | .tagsF (some (.list _)) => false

/-- The query string assembled inside `executeCommand` (lines 281-298 of
the callback variant): every parameter whose value is neither undefined
nor null (`Option.none` models those) is appended, then `x-success` and
`x-error` are appended, both pointing at the local callback URL. -/
def buildQuery (params : List (String × Option String)) (callbackUrl : String) :
    List (String × String) :=
  params.filterMap (fun kv => kv.2.map (fun v => (kv.1, v))) ++
    [("x-success", callbackUrl), ("x-error", callbackUrl)]

/-- The lifting with which a facade record (all values present strings)
enters `executeCommand`. -/
def liftParams (ps : List (String × String)) : List (String × Option String) :=
  ps.map (fun kv => (kv.1, some kv.2))

/-!
## Theorems
-/

theorem intercalate_go_acc (s : String) (l : List String) : ∀ acc : String,
    String.intercalate.go acc s l = acc ++ String.intercalate.go "" s l := by
  induction l with
  | nil => intro acc; simp [String.intercalate.go]
  | cons y ys ih =>
      intro acc
      rw [String.intercalate.go, String.intercalate.go]
      rw [ih (acc ++ s ++ y), ih ("" ++ s ++ y)]
      simp [String.append_assoc]

theorem intercalate_cons_ne_nil (x : String) (l : List String) (h : l ≠ []) :
    String.intercalate "," (x :: l) = x ++ "," ++ String.intercalate "," l := by
  cases l with
  | nil => exact absurd rfl h
  | cons y ys =>
      show String.intercalate.go x "," (y :: ys)
        = x ++ "," ++ String.intercalate.go y "," ys
      rw [String.intercalate.go]
      rw [intercalate_go_acc "," ys (x ++ "," ++ y), intercalate_go_acc "," ys y]
      simp [String.append_assoc]

theorem joinComma_eq_intercalate (l : List String) :
    joinComma l = String.intercalate "," l := by
  induction l with
  | nil => rfl
  | cons x xs ih =>
      cases xs with
      | nil => rfl
      | cons y ys =>
          rw [show joinComma (x :: y :: ys) = x ++ "," ++ joinComma (y :: ys) from rfl]
          rw [ih, intercalate_cons_ne_nil x (y :: ys) (List.cons_ne_nil y ys)]

/-- C7: formatTags joins a list of strings with commas (it agrees with
comma-intercalation, e.g. the list [work, urgent] becomes the string
work,urgent) and is the identity on bare strings. -/
theorem formatTags_join_spec :
    (∀ l : List String, formatTags (.list l) = String.intercalate "," l) ∧
    (∀ s : String, formatTags (.str s) = s) ∧
    formatTags (.list ["work", "urgent"]) = "work,urgent" ∧
    formatTags (.str "work") = "work" := by
  refine ⟨fun l => joinComma_eq_intercalate l, fun s => rfl, ?_, rfl⟩
  decide

/-- C6: validateAndFormatBoolean succeeds exactly on the boolean true
(giving the token yes), the boolean false (giving the token no), and
the two string tokens themselves (passed through unchanged); every
other value is rejected with an error, never coerced. -/
theorem validateAndFormatBoolean_spec (v : JValue) (name t : String) :
    validateAndFormatBoolean v name = .ok t ↔
      ((v = .bool true ∨ v = .str "yes") ∧ t = "yes") ∨
      ((v = .bool false ∨ v = .str "no") ∧ t = "no") := by
  cases v with
  | bool b => cases b <;> simp [validateAndFormatBoolean] <;> tauto
  | str s =>
      by_cases h1 : s = "yes"
      · subst h1; simp [validateAndFormatBoolean]; tauto
      · by_cases h2 : s = "no"
        · subst h2; simp [validateAndFormatBoolean]; tauto
        · simp [validateAndFormatBoolean, h1, h2]
  | num n => simp [validateAndFormatBoolean]
  | null => simp [validateAndFormatBoolean]
  | undef => simp [validateAndFormatBoolean]

@[simp] theorem settleWith_settled (s : ExchangeState) (o : Outcome) :
    (settleWith s o).settled = some (s.settled.getD o) := by
  cases h : s.settled <;> simp [settleWith, h]

@[simp] theorem settleWith_bound (s : ExchangeState) (o : Outcome) :
    (settleWith s o).bound = s.bound := by
  cases h : s.settled <;> simp [settleWith, h]

@[simp] theorem settleWith_contDone (s : ExchangeState) (o : Outcome) :
    (settleWith s o).contDone = s.contDone := by
  cases h : s.settled <;> simp [settleWith, h]

@[simp] theorem settleWith_dispatched (s : ExchangeState) (o : Outcome) :
    (settleWith s o).dispatched = s.dispatched := by
  cases h : s.settled <;> simp [settleWith, h]

@[simp] theorem settleWith_timerSet (s : ExchangeState) (o : Outcome) :
    (settleWith s o).timerSet = s.timerSet := by
  cases h : s.settled <;> simp [settleWith, h]

@[simp] theorem settleWith_timerFired (s : ExchangeState) (o : Outcome) :
    (settleWith s o).timerFired = s.timerFired := by
  cases h : s.settled <;> simp [settleWith, h]

@[simp] theorem settleWith_serverClosed (s : ExchangeState) (o : Outcome) :
    (settleWith s o).serverClosed = s.serverClosed := by
  cases h : s.settled <;> simp [settleWith, h]

theorem step_preserves_settled (s : ExchangeState) (e : CallbackEvent) (o : Outcome)
    (h : s.settled = some o) : (step s e).settled = some o := by
  cases e <;> simp only [step] <;> (try split) <;> simp [h]

theorem foldl_preserves_settled (tr : List CallbackEvent) (s : ExchangeState) (o : Outcome)
    (h : s.settled = some o) : (tr.foldl step s).settled = some o := by
  induction tr generalizing s with
  | nil => exact h
  | cons e rest ih =>
      exact ih (step s e) (step_preserves_settled s e o h)

theorem run_append (tr rest : List CallbackEvent) :
    run (tr ++ rest) = rest.foldl step (run tr) := by
  unfold run
  exact List.foldl_append ..

/-- Once the promise of an exchange is settled, no later event changes
the settlement (JavaScript promises settle exactly once). -/
theorem settled_stable (tr rest : List CallbackEvent) (o : Outcome)
    (h : (run tr).settled = some o) : (run (tr ++ rest)).settled = some o := by
  rw [run_append]
  exact foldl_preserves_settled rest (run tr) o h

/-- Structural invariant of an exchange: exec is dispatched only once the
socket is bound; the listen continuation implies a registered timer or a
settlement; a fired timer implies a settlement. -/
def ExchangeInv (s : ExchangeState) : Prop :=
  (s.dispatched = true → s.bound = true) ∧
  (s.contDone = true → s.bound = true) ∧
  (s.timerSet = true → s.dispatched = true) ∧
  (s.contDone = true → s.timerSet = true ∨ s.settled.isSome = true) ∧
  (s.timerFired = true → s.settled.isSome = true)

theorem step_inv (s : ExchangeState) (e : CallbackEvent)
    (h : ExchangeInv s) : ExchangeInv (step s e) := by
  obtain ⟨h1, h2, h3, h4, h5⟩ := h
  cases e with
  | listening =>
      simp only [step]
      split
      · exact ⟨h1, h2, h3, h4, h5⟩
      · exact ⟨fun _ => rfl, fun _ => rfl, h3, h4, h5⟩
  | serverError =>
      show ExchangeInv (settleWith s .serverErr)
      exact ⟨by simpa using h1, by simpa using h2, by simpa using h3,
        fun _ => Or.inr (by simp), fun _ => by simp⟩
  | contOk =>
      simp only [step]
      split
      · rename_i hg
        simp only [Bool.and_eq_true, Bool.not_eq_true'] at hg
        exact ⟨fun _ => hg.1, fun _ => hg.1, fun _ => rfl, fun _ => Or.inl rfl, h5⟩
      · exact ⟨h1, h2, h3, h4, h5⟩
  | contFail =>
      simp only [step]
      split
      · rename_i hg
        simp only [Bool.and_eq_true, Bool.not_eq_true'] at hg
        exact ⟨by simpa using h1, fun _ => by simpa using hg.1, by simpa using h3,
          fun _ => Or.inr (by simp), fun _ => by simp⟩
      · exact ⟨h1, h2, h3, h4, h5⟩
  | callbackReq p =>
      simp only [step]
      split
      · exact ⟨by simpa using h1, by simpa using h2, by simpa using h3,
          fun _ => Or.inr (by simp), fun _ => by simp⟩
      · exact ⟨h1, h2, h3, h4, h5⟩
  | timerFire =>
      simp only [step]
      split
      · exact ⟨by simpa using h1, by simpa using h2, by simpa using h3,
          fun _ => Or.inr (by simp), fun _ => by simp⟩
      · exact ⟨h1, h2, h3, h4, h5⟩

theorem initExchange_inv : ExchangeInv initExchange := by
  refine ⟨?_, ?_, ?_, ?_, ?_⟩ <;> intro h <;> simp [initExchange] at h

theorem invariant_run (tr : List CallbackEvent) : ExchangeInv (run tr) := by
  unfold run
  induction tr using List.reverseRecOn with
  | nil => exact initExchange_inv
  | append_singleton rest e ih =>
      rw [List.foldl_append]
      exact step_inv _ e ih

theorem run_snoc (tr : List CallbackEvent) (e : CallbackEvent) :
    run (tr ++ [e]) = step (run tr) e := by
  rw [run_append]
  rfl

theorem step_timerFire_fired (s : ExchangeState) (ht : s.timerSet = true) :
    (step s .timerFire).timerFired = true := by
  cases hf : s.timerFired with
  | true => simp only [step]; split <;> simp [hf]
  | false => simp [step, ht, hf]

/-- C1: one executeCommand invocation settles its promise exactly once.
Given the runtime liveness guarantees (the listen attempt concludes by
binding the socket or by settling through the error handler, the listen
continuation runs to completion once the socket is bound, and a
registered timeout eventually fires because the code never cancels it),
the promise is settled once the deadline has passed — never neither;
and once settled with an outcome, no further event (late callback,
timer, error) can change it — never both. -/
theorem executeCommand_settles_exactly_once (tr rest : List CallbackEvent) (o : Outcome)
    (hListen : (run tr).bound = true ∨ (run tr).settled.isSome = true)
    (hCont : (run tr).bound = true → (run tr).contDone = true)
    (hTimer : (run tr).timerSet = true → (run tr).timerFired = true) :
    (run tr).settled.isSome = true ∧
      ((run tr).settled = some o → (run (tr ++ rest)).settled = some o) := by
  refine ⟨?_, fun h => settled_stable tr rest o h⟩
  rcases hListen with hb | hs
  · obtain ⟨_, _, _, h4, h5⟩ := invariant_run tr
    rcases h4 (hCont hb) with ht | hsm
    · exact h5 (hTimer ht)
    · exact hsm
  · exact hs

theorem executeCommand_settles_exactly_once_witness :
    (run [.listening, .contOk, .timerFire]).settled.isSome = true ∧
      ((run [.listening, .contOk, .timerFire]).settled = some .timeoutErr →
        (run ([.listening, .contOk, .timerFire] ++ [.callbackReq [("x", "1")]])).settled
          = some .timeoutErr) :=
  executeCommand_settles_exactly_once [.listening, .contOk, .timerFire]
    [.callbackReq [("x", "1")]] .timeoutErr (Or.inl (by decide))
    (fun _ => by decide) (fun _ => by decide)

/-- C2 counterexample: when the callback arrives before the timeout, the
exchange does resolve with the payload, but the timer is NOT cancelled:
executeCommand never calls clearTimeout, so the timeout callback still
runs afterwards (timerFired is true in the final state).  Its rejection
and close are no-ops only because the promise is already resolved and
the server already closed. -/
theorem executeCommand_timer_not_cancelled_cex :
    (run [.listening, .contOk, .callbackReq [("ok", "1")], .timerFire]).settled
        = some (.payload [("ok", "1")]) ∧
      (run [.listening, .contOk, .callbackReq [("ok", "1")], .timerFire]).timerFired
        = true := by
  decide

/-- C2 (amended): in the race inside executeCommand, if the first
inbound callback is served while the server is accepting and the
promise is pending, the exchange resolves with the payload, the request
handler has closed the server, and no later event — including the
still-armed 10-second timer firing — changes the settlement, so a late
callback is never surfaced as a timeout (the timer is not cancelled;
when set, it still fires afterwards, and its close and reject are
no-ops on the already-closed server and already-resolved promise); if
instead the timer fires first while the promise is pending, the server
is closed and the promise is rejected with the timeout error. -/
theorem executeCommand_callback_timer_race (tr rest : List CallbackEvent)
    (p : List (String × String))
    (hb : (run tr).bound = true) (hnc : (run tr).serverClosed = false) :
    ((run tr).settled = none →
      (run ((tr ++ [.callbackReq p]) ++ rest)).settled = some (.payload p) ∧
        (run (tr ++ [.callbackReq p])).serverClosed = true ∧
        ((run tr).timerSet = true →
          (run ((tr ++ [.callbackReq p]) ++ [.timerFire])).timerFired = true)) ∧
    ((run tr).timerSet = true → (run tr).timerFired = false → (run tr).settled = none →
      (run (tr ++ [.timerFire])).settled = some .timeoutErr ∧
        (run (tr ++ [.timerFire])).serverClosed = true) := by
  constructor
  · intro hns
    have hcb : run (tr ++ [.callbackReq p]) = step (run tr) (.callbackReq p) :=
      run_snoc tr (.callbackReq p)
    have hset : (run (tr ++ [.callbackReq p])).settled = some (.payload p) := by
      rw [hcb]
      simp [step, hb, hnc, hns]
    refine ⟨settled_stable (tr ++ [.callbackReq p]) rest (.payload p) hset, ?_, ?_⟩
    · rw [hcb]
      simp [step, hb, hnc]
    intro ht
    have h2 : run ((tr ++ [.callbackReq p]) ++ [.timerFire])
        = step (run (tr ++ [.callbackReq p])) .timerFire :=
      run_snoc (tr ++ [.callbackReq p]) .timerFire
    rw [h2]
    apply step_timerFire_fired
    rw [hcb]
    simp [step, hb, hnc, ht]
  · intro ht hf hns
    rw [run_snoc tr .timerFire]
    simp [step, ht, hf, hns]

theorem executeCommand_callback_timer_race_witness :
    (run (([.listening, .contOk] ++ [.callbackReq [("note", "n")]]) ++ [.timerFire])).settled
      = some (.payload [("note", "n")]) :=
  ((executeCommand_callback_timer_race [.listening, .contOk] [.timerFire]
      [("note", "n")] (by decide) (by decide)).1 (by decide)).1

/-- C3: the external open invocation is dispatched only when the local
server is already bound and accepting (the dispatch happens inside the
server.listen continuation), and the callback URL is embedded in the
outbound query as both the x-success and the x-error destination. -/
theorem executeCommand_bind_before_dispatch (tr : List CallbackEvent)
    (ps : List (String × Option String)) (cb : String) :
    ((run tr).dispatched = true → (run tr).bound = true) ∧
      ("x-success", cb) ∈ buildQuery ps cb ∧ ("x-error", cb) ∈ buildQuery ps cb := by
  refine ⟨(invariant_run tr).1, ?_, ?_⟩ <;> simp [buildQuery]

theorem executeCommand_bind_before_dispatch_witness :
    (run [.listening, .contOk]).bound = true ∧
      ("x-success", "http://localhost:54321") ∈ buildQuery [] "http://localhost:54321" :=
  ⟨(executeCommand_bind_before_dispatch [.listening, .contOk] [] "http://localhost:54321").1
      (by decide),
    (executeCommand_bind_before_dispatch [.listening, .contOk] [] "http://localhost:54321").2.1⟩

/-- C4 counterexample: a transport-level error event while listening
rejects the promise, but the listening socket is NOT shut down: the
server.on('error') handler contains no server.close(), so serverClosed
is still false after the exchange settled with the server error. -/
theorem serverError_socket_not_closed_cex :
    (run [.listening, .serverError]).settled = some .serverErr ∧
      (run [.listening, .serverError]).serverClosed = false := by
  decide

/-- C4 (amended): a transport-level error event on the listening socket
rejects the pending promise immediately with the server error, but the
error handler performs no shutdown of the socket: its closed state is
exactly what it was before the event. -/
theorem serverError_rejects_immediately (tr : List CallbackEvent)
    (h : (run tr).settled = none) :
    (run (tr ++ [.serverError])).settled = some .serverErr ∧
      (run (tr ++ [.serverError])).serverClosed = (run tr).serverClosed := by
  rw [run_snoc tr .serverError]
  constructor
  · show (settleWith (run tr) .serverErr).settled = some .serverErr
    simp [h]
  · show (settleWith (run tr) .serverErr).serverClosed = (run tr).serverClosed
    simp

theorem serverError_rejects_immediately_witness :
    (run ([.listening] ++ [.serverError])).settled = some .serverErr ∧
      (run ([.listening] ++ [.serverError])).serverClosed = (run [.listening]).serverClosed :=
  serverError_rejects_immediately [.listening] (by decide)

theorem pushStr_not_mem (key : String) (v : Option String) (acc : List (String × String))
    (k : String) (hne : k ≠ key) (hk : k ∉ acc.map Prod.fst) :
    k ∉ (pushStr key v acc).map Prod.fst := by
  cases v with
  | none => exact hk
  | some s =>
      by_cases hs : s = ""
      · simpa [pushStr, hs] using hk
      · simp only [pushStr, if_neg hs, List.map_append, List.map_cons, List.map_nil,
          List.mem_append, List.mem_cons, List.not_mem_nil, or_false]
        rintro (h | h)
        · exact hk h
        · exact hne h

theorem pushTags_not_mem (v : Option TagsParam) (acc : List (String × String))
    (k : String) (hne : k ≠ "tags") (hk : k ∉ acc.map Prod.fst) :
    k ∉ (pushTags v acc).map Prod.fst := by
  cases v with
  | none => exact hk
  | some tp =>
      cases tp with
      | str s =>
          by_cases hs : s = ""
          · simpa [pushTags, hs] using hk
          · simp only [pushTags, if_neg hs, List.map_append, List.map_cons, List.map_nil,
              List.mem_append, List.mem_cons, List.not_mem_nil, or_false]
            rintro (h | h)
            · exact hk h
            · exact hne h
      | list l =>
          simp only [pushTags, List.map_append, List.map_cons, List.map_nil,
            List.mem_append, List.mem_cons, List.not_mem_nil, or_false]
          rintro (h | h)
          · exact hk h
          · exact hne h

theorem pushBool_ok_shape (key : String) (v : Option JValue) (acc ps : List (String × String))
    (h : pushBool key v acc = .ok ps) :
    ps = acc ∨ ∃ t, ps = acc ++ [(key, t)] := by
  cases v with
  | none =>
      simp only [pushBool, Except.ok.injEq] at h
      exact Or.inl h.symm
  | some jv =>
      simp only [pushBool] at h
      cases hv : validateAndFormatBoolean jv key with
      | error e => rw [hv] at h; simp [Except.bind, Bind.bind] at h
      | ok t =>
          rw [hv] at h
          simp [Except.bind, Bind.bind, pure, Except.pure] at h
          exact Or.inr ⟨t, h.symm⟩

theorem pushField_not_mem (f : Field) (acc ps : List (String × String)) (k : String)
    (hne : k ≠ fieldKey f) (h : pushField acc f = .ok ps) (hk : k ∉ acc.map Prod.fst) :
    k ∉ ps.map Prod.fst := by
  cases f with
  | strF key v =>
      simp only [pushField, Except.ok.injEq] at h
      rw [← h]
      exact pushStr_not_mem key v acc k hne hk
  | boolF key v =>
      simp only [pushField] at h
      rcases pushBool_ok_shape key v acc ps h with hsh | ⟨t, hsh⟩
      · rw [hsh]; exact hk
      · rw [hsh]
        simp only [List.map_append, List.map_cons, List.map_nil, List.mem_append,
          List.mem_cons, List.not_mem_nil, or_false]
        rintro (hm | hm)
        · exact hk hm
        · exact hne hm
  | tagsF v =>
      simp only [pushField, Except.ok.injEq] at h
      rw [← h]
      exact pushTags_not_mem v acc k hne hk

theorem pushField_skips (f : Field) (acc : List (String × String))
    (h : fieldSkips f = true) : pushField acc f = .ok acc := by
  cases f with
  | strF key v =>
      cases v with
      | none => rfl
      | some s =>
          have hs : s = "" := by simpa [fieldSkips] using h
          simp [pushField, pushStr, hs]
  | boolF key v =>
      cases v with
      | none => rfl
      | some jv => simp [fieldSkips] at h
  | tagsF v =>
      cases v with
      | none => rfl
      | some tp =>
          cases tp with
          | str s =>
              have hs : s = "" := by simpa [fieldSkips] using h
              simp [pushField, pushTags, hs]
          | list l => simp [fieldSkips] at h

theorem pushFields_not_mem (fs : List Field) : ∀ (acc ps : List (String × String)) (k : String),
    (∀ f ∈ fs, k ≠ fieldKey f ∨ fieldSkips f = true) →
    pushFields acc fs = .ok ps → k ∉ acc.map Prod.fst → k ∉ ps.map Prod.fst := by
  induction fs with
  | nil =>
      intro acc ps k _ h hk
      simp only [pushFields, Except.ok.injEq] at h
      rw [← h]
      exact hk
  | cons f fs ih =>
      intro acc ps k hf h hk
      simp only [pushFields] at h
      cases h1 : pushField acc f with
      | error e => rw [h1] at h; simp [Except.bind, Bind.bind] at h
      | ok acc2 =>
          rw [h1] at h
          simp only [Except.bind, Bind.bind] at h
          have hk2 : k ∉ acc2.map Prod.fst := by
            rcases hf f (List.mem_cons_self f fs) with hne | hskip
            · exact pushField_not_mem f acc acc2 k hne h1 hk
            · rw [pushField_skips f acc hskip] at h1
              simp only [Except.ok.injEq] at h1
              rw [← h1]
              exact hk
          exact ih acc2 ps k (fun g hg => hf g (List.mem_cons_of_mem f hg)) h hk2

theorem addSelectedToken_ok_shape (sel : Option JValue) (tok : Option String)
    (acc ps : List (String × String)) (h : addSelectedToken sel tok acc = .ok ps) :
    ps = acc ∨ ps = acc ++ [("token", (tokenValue tok).getD "")] := by
  unfold addSelectedToken at h
  split at h
  · cases htv : tokenValue tok with
    | none => rw [htv] at h; cases h
    | some t =>
        rw [htv] at h
        simp only [Except.ok.injEq] at h
        rw [← h]
        exact Or.inr rfl
  · simp only [Except.ok.injEq] at h
    exact Or.inl h.symm

theorem filterMap_liftParams (ps : List (String × String)) :
    (liftParams ps).filterMap (fun kv => kv.2.map (fun v => (kv.1, v))) = ps := by
  induction ps with
  | nil => rfl
  | cons kv rest ih => simp [liftParams, List.filterMap_cons, Option.map] at ih ⊢; exact ih

theorem mem_keys_buildQuery (ps : List (String × String)) (cb k : String)
    (h : k ∈ (buildQuery (liftParams ps) cb).map Prod.fst) :
    k ∈ ps.map Prod.fst ∨ k = "x-success" ∨ k = "x-error" := by
  unfold buildQuery at h
  rw [filterMap_liftParams] at h
  simp only [List.map_append, List.map_cons, List.map_nil, List.mem_append,
    List.mem_cons, List.not_mem_nil, or_false] at h
  exact h

/-- C5 counterexample: addText with neither id nor title (and nothing
else) does NOT fail with a validation error: it succeeds and dispatches
the add-text action with an empty parameter record.  The source of
addText contains no id-or-title presence check. -/
theorem addText_without_id_or_title_succeeds_cex :
    addText {} none = .ok ⟨"add-text", []⟩ := by
  rfl

/-- C5 (amended): grabURL validates its required url field before any
external interaction: an empty or whitespace-only url yields the
validation error, so no command is ever produced (no listener is
created and nothing is dispatched).  addText, however, performs no
id-or-title presence validation: with both absent it is not rejected
for that reason, and whenever it returns a command, that command is the
add-text action and carries no id and no title key. -/
theorem grabURL_validates_addText_does_not (p : GrabURLParams) (q : AddTextParams)
    (tok : Option String) (c : Command)
    (hurl : jsTrim p.url = "") (hid : q.id = none) (hti : q.title = none) :
    grabURL p = .error ("url must be a non-empty string") ∧
      (addText q tok = .ok c →
        c.action = "add-text" ∧ "id" ∉ c.params.map Prod.fst ∧
          "title" ∉ c.params.map Prod.fst) := by
  constructor
  · simp [grabURL, validateNonEmptyString, hurl]
  · intro h
    unfold addText at h
    cases h1 : addTextParamList q with
    | error e => rw [h1] at h; simp [Except.bind, Bind.bind] at h
    | ok ps =>
        rw [h1] at h
        simp only [Except.bind, Bind.bind] at h
        cases h2 : addSelectedToken q.selected tok ps with
        | error e => rw [h2] at h; simp [Except.bind, Bind.bind] at h
        | ok ps2 =>
            rw [h2] at h
            simp only [Except.bind, Bind.bind, pure, Except.pure, Except.ok.injEq] at h
            rw [← h]
            simp only [addTextParamList] at h1
            have hfields : ∀ k : String, k = "id" ∨ k = "title" → ∀ f,
                f ∈ [Field.strF "id" q.id, Field.strF "title" q.title,
                  Field.boolF "selected" q.selected, Field.strF "text" q.text,
                  Field.boolF "clipboard" q.clipboard, Field.strF "header" q.header,
                  Field.strF "mode" q.mode, Field.boolF "new_line" q.new_line,
                  Field.tagsF q.tags, Field.boolF "exclude_trashed" q.exclude_trashed,
                  Field.boolF "open_note" q.open_note, Field.boolF "new_window" q.new_window,
                  Field.boolF "show_window" q.show_window, Field.boolF "edit" q.edit,
                  Field.boolF "timestamp" q.timestamp] →
                k ≠ fieldKey f ∨ fieldSkips f = true := by
              intro k hk f hf
              simp only [List.mem_cons, List.not_mem_nil, or_false] at hf
              rcases hf with rfl | rfl | rfl | rfl | rfl | rfl | rfl | rfl | rfl | rfl |
                rfl | rfl | rfl | rfl | rfl
              · exact Or.inr (by rw [hid]; rfl)
              · exact Or.inr (by rw [hti]; rfl)
              all_goals rcases hk with rfl | rfl <;> exact Or.inl (by simp [fieldKey])
            have hidps : "id" ∉ ps.map Prod.fst :=
              pushFields_not_mem _ [] ps "id" (hfields "id" (Or.inl rfl)) h1 (by simp)
            have htips : "title" ∉ ps.map Prod.fst :=
              pushFields_not_mem _ [] ps "title" (hfields "title" (Or.inr rfl)) h1 (by simp)
            refine ⟨rfl, ?_, ?_⟩ <;>
              rcases addSelectedToken_ok_shape q.selected tok ps ps2 h2 with hs | hs <;>
              rw [hs] <;> simp_all

theorem grabURL_validates_addText_does_not_witness :
    grabURL ⟨"  ", none, none, none⟩ = .error ("url must be a non-empty string") ∧
      ((⟨"add-text", []⟩ : Command).action = "add-text" ∧
        "id" ∉ (⟨"add-text", []⟩ : Command).params.map Prod.fst ∧
        "title" ∉ (⟨"add-text", []⟩ : Command).params.map Prod.fst) := by
  have h := grabURL_validates_addText_does_not ⟨"  ", none, none, none⟩ {} none
    ⟨"add-text", []⟩ (by decide) rfl rfl
  exact ⟨h.1, h.2 (by rfl)⟩

/-- C8: token injection for credential-requiring actions.  openNote,
addText and addFile (their token blocks are identical) with selected
equal to the boolean true or the affirmative token: with no token
configured the call throws, and with a truthy token configured every
successful call carries the token parameter in its dispatched record.
getTags throws when no token is configured and otherwise sends the
token. -/
theorem token_required_spec (p : OpenNoteParams) (q : AddTextParams) (r : AddFileParams)
    (t : String) (c d f : Command) :
    (selectedAffirmative p.selected = true → ∃ e, openNote p none = .error e) ∧
    (selectedAffirmative p.selected = true → t ≠ "" → openNote p (some t) = .ok c →
      ("token", t) ∈ c.params) ∧
    (selectedAffirmative q.selected = true → ∃ e, addText q none = .error e) ∧
    (selectedAffirmative q.selected = true → t ≠ "" → addText q (some t) = .ok d →
      ("token", t) ∈ d.params) ∧
    (selectedAffirmative r.selected = true → ∃ e, addFile r none = .error e) ∧
    (selectedAffirmative r.selected = true → t ≠ "" → addFile r (some t) = .ok f →
      ("token", t) ∈ f.params) ∧
    getTags none = .error ("Token is required for getTags") ∧
    (t ≠ "" → getTags (some t) = .ok ⟨"tags", [("token", t)]⟩) := by
  refine ⟨?_, ?_, ?_, ?_, ?_, ?_, rfl, ?_⟩
  · intro hsel
    unfold openNote
    cases h1 : openNoteParamList p with
    | error e => exact ⟨e, rfl⟩
    | ok ps =>
        simp only [Except.bind, Bind.bind]
        have h2 : addSelectedToken p.selected none ps
            = .error ("Token is required when selected is true") := by
          simp [addSelectedToken, hsel, tokenValue]
        rw [h2]
        exact ⟨_, rfl⟩
  · intro hsel hne h
    unfold openNote at h
    cases h1 : openNoteParamList p with
    | error e => rw [h1] at h; simp [Except.bind, Bind.bind] at h
    | ok ps =>
        rw [h1] at h
        simp only [Except.bind, Bind.bind] at h
        have h2 : addSelectedToken p.selected (some t) ps = .ok (ps ++ [("token", t)]) := by
          simp [addSelectedToken, hsel, tokenValue, hne]
        rw [h2] at h
        simp only [Except.bind, Bind.bind, pure, Except.pure, Except.ok.injEq] at h
        rw [← h]
        simp
  · intro hsel
    unfold addText
    cases h1 : addTextParamList q with
    | error e => exact ⟨e, rfl⟩
    | ok ps =>
        simp only [Except.bind, Bind.bind]
        have h2 : addSelectedToken q.selected none ps
            = .error ("Token is required when selected is true") := by
          simp [addSelectedToken, hsel, tokenValue]
        rw [h2]
        exact ⟨_, rfl⟩
  · intro hsel hne h
    unfold addText at h
    cases h1 : addTextParamList q with
    | error e => rw [h1] at h; simp [Except.bind, Bind.bind] at h
    | ok ps =>
        rw [h1] at h
        simp only [Except.bind, Bind.bind] at h
        have h2 : addSelectedToken q.selected (some t) ps = .ok (ps ++ [("token", t)]) := by
          simp [addSelectedToken, hsel, tokenValue, hne]
        rw [h2] at h
        simp only [Except.bind, Bind.bind, pure, Except.pure, Except.ok.injEq] at h
        rw [← h]
        simp
  · intro hsel
    unfold addFile
    cases h1 : addFileParamList r with
    | error e => exact ⟨e, rfl⟩
    | ok ps =>
        simp only [Except.bind, Bind.bind]
        have h2 : addSelectedToken r.selected none ps
            = .error ("Token is required when selected is true") := by
          simp [addSelectedToken, hsel, tokenValue]
        rw [h2]
        exact ⟨_, rfl⟩
  · intro hsel hne h
    unfold addFile at h
    cases h1 : addFileParamList r with
    | error e => rw [h1] at h; simp [Except.bind, Bind.bind] at h
    | ok ps =>
        rw [h1] at h
        simp only [Except.bind, Bind.bind] at h
        have h2 : addSelectedToken r.selected (some t) ps = .ok (ps ++ [("token", t)]) := by
          simp [addSelectedToken, hsel, tokenValue, hne]
        rw [h2] at h
        simp only [Except.bind, Bind.bind, pure, Except.pure, Except.ok.injEq] at h
        rw [← h]
        simp
  · intro hne
    simp [getTags, tokenValue, hne]

theorem token_required_spec_witness :
    (∃ e, openNote { selected := some (.bool true) } none = .error e) ∧
      ("token", "tk") ∈ (Command.mk "open-note" [("selected", "yes"), ("token", "tk")]).params ∧
      (∃ e, addFile { selected := some (.bool true), file := "f", filename := "n" } none
        = .error e) ∧
      ("token", "tk") ∈ (Command.mk "add-file"
        [("selected", "yes"), ("file", "f"), ("filename", "n"), ("token", "tk")]).params ∧
      getTags (some "tk") = .ok ⟨"tags", [("token", "tk")]⟩ := by
  have h := token_required_spec { selected := some (.bool true) }
    { selected := some (.bool true) }
    { selected := some (.bool true), file := "f", filename := "n" } "tk"
    (Command.mk "open-note" [("selected", "yes"), ("token", "tk")])
    (Command.mk "add-text" [("selected", "yes"), ("token", "tk")])
    (Command.mk "add-file" [("selected", "yes"), ("file", "f"), ("filename", "n"), ("token", "tk")])
  exact ⟨h.1 rfl, h.2.1 rfl (by decide) (by rfl), h.2.2.2.2.1 rfl,
    h.2.2.2.2.2.1 rfl (by decide) (by rfl), h.2.2.2.2.2.2.2 (by decide)⟩

/-- C9 counterexample: the stored authentication token is not read-only
after the client is constructed: the public setToken method reassigns
it, changing the stored token of an already-initialized instance. -/
theorem setToken_mutates_token_cex :
    (setToken ⟨some "a"⟩ "b").token ≠ (BearAPI.mk (some "a")).token := by
  decide

/-- C9 (amended): the facade command methods never mutate the stored
token: searchNotes hands back exactly the instance state it received,
and a truthy per-call token overrides the stored default for that call
only — the dispatched command carries the per-call token while the
stored default is unchanged.  The token is, however, not read-only
after initialization: the public setToken method reassigns it. -/
theorem searchNotes_token_frame (a : BearAPI) (p : SearchParams) (t : String) (c : Command) :
    (searchNotes a p).2 = a ∧
      (p.token = some t → t ≠ "" → (searchNotes a p).1 = .ok c →
        ("token", t) ∈ c.params ∧ (searchNotes a p).2.token = a.token) := by
  refine ⟨rfl, ?_⟩
  intro hpt hne h
  refine ⟨?_, rfl⟩
  have h' : searchNotesCmd a p = .ok c := h
  unfold searchNotesCmd at h'
  cases h1 : pushFields []
      [Field.strF "term" p.term, Field.strF "tag" p.tag,
        Field.boolF "show_window" p.show_window] with
  | error e => rw [h1] at h'; simp [Except.bind, Bind.bind] at h'
  | ok q =>
      rw [h1] at h'
      simp only [Except.bind, Bind.bind] at h'
      rw [hpt] at h'
      have ho : orToken (some t) a.token = some t := by
        simp [orToken, tokenValue, hne]
      rw [ho] at h'
      simp only [pure, Except.pure, Except.ok.injEq] at h'
      rw [← h']
      simp

theorem searchNotes_token_frame_witness :
    (searchNotes ⟨some "default"⟩ { token := some "per" }).2 = ⟨some "default"⟩ ∧
      ("token", "per") ∈ (Command.mk "search" [("token", "per")]).params := by
  have h := searchNotes_token_frame ⟨some "default"⟩ { token := some "per" } "per"
    (Command.mk "search" [("token", "per")])
  exact ⟨h.1, (h.2 rfl (by decide) (by rfl)).1⟩

/-- C10: an optional string parameter whose value is the empty string is
silently omitted.  createNote with an empty title behaves exactly as
the same call with the title absent (in particular no validation error
arises from that field), and whenever a command is produced its record
has no title entry, and the outbound query assembled by executeCommand
carries no title key either (the only keys added beyond the record are
x-success and x-error). -/
theorem createNote_empty_string_omitted (p : CreateNoteParams) (c : Command) (cb : String)
    (hti : p.title = some "") :
    createNote p = createNote { p with title := none } ∧
      (createNote p = .ok c →
        "title" ∉ c.params.map Prod.fst ∧
          "title" ∉ (buildQuery (liftParams c.params) cb).map Prod.fst) := by
  constructor
  · unfold createNote createNoteParamList
    rw [hti]
    rfl
  · intro h
    unfold createNote at h
    cases h1 : createNoteParamList p with
    | error e => rw [h1] at h; simp [Except.bind, Bind.bind] at h
    | ok ps =>
        rw [h1] at h
        simp only [Except.bind, Bind.bind, pure, Except.pure, Except.ok.injEq] at h
        rw [← h]
        simp only [createNoteParamList] at h1
        have hkeys : "title" ∉ ps.map Prod.fst := by
          apply pushFields_not_mem _ [] ps "title" ?_ h1 (by simp)
          intro f hf
          simp only [List.mem_cons, List.not_mem_nil, or_false] at hf
          rcases hf with rfl | rfl | rfl | rfl | rfl | rfl | rfl | rfl | rfl | rfl |
            rfl | rfl | rfl | rfl | rfl
          · exact Or.inr (by rw [hti]; rfl)
          all_goals exact Or.inl (by simp [fieldKey])
        refine ⟨hkeys, ?_⟩
        intro hmem
        rcases mem_keys_buildQuery ps cb "title" hmem with hm | hm | hm
        · exact hkeys hm
        · exact absurd hm (by decide)
        · exact absurd hm (by decide)

theorem createNote_empty_string_omitted_witness :
    "title" ∉ (Command.mk "create" []).params.map Prod.fst ∧
      "title" ∉ (buildQuery (liftParams (Command.mk "create" []).params) "cb").map Prod.fst :=
  (createNote_empty_string_omitted { title := some "" } (Command.mk "create" []) "cb"
    rfl).2 (by rfl)

end BearMcp
